import Mathlib

/-!
Verification of the hololive-app multiview core.

Shallow embedding of the multiview core of the `park285/hololive-app`
repository, together with proofs about it:

* the player-pool LRU scheduler (`usePlayerPool` in the source:
  `activatePlayer`, `deactivatePlayer`, `deactivateAll`, `getPlayerToEvict`);
* the grid model and the placement allocator
  (`findEmptyPosition` in `src/stores/multiviewStore.ts`);
* the clamp pass (`handleLayoutChange` in
  `src/components/multiview/MultiviewGrid.tsx`);
* the layout/content reconciler
  (`sanitizeGhostReferences`, `reconcileLayout` in
  `src/utils/layoutReconciler.ts`);
* the store actions `addCell`, `setPlayerState` and the commit performed by
  `loadState` (`src/stores/multiviewStore.ts`).

TypeScript `number` coordinates are modelled as `Int`.  The one place the
source stores a non-integer coordinate is `reconcileLayout`, which writes
the sentinel `y: Infinity`; the `y` field is therefore modelled as
`Option Int` with `none` standing for that `Infinity` sentinel and `some n`
for a finite coordinate.  JavaScript `Record<string, _>` objects are
modelled as insertion-ordered association lists (`List (String × _)`);
`Object.keys` corresponds to `List.map Prod.fst`.

The file is organised as definitions first, then theorems.
-/

namespace Hololive

/-!
Definitions: player pool (LRU admission control), from `usePlayerPool`.
The pool state is the ordered list of active cell ids, most recently
activated first.  The hook takes the bound as a parameter (default
`PLAYER_POOL_CONFIG.MAX_ACTIVE_PLAYERS = 6`), so the definitions do too.
-/

/-- Constant `PLAYER_POOL_CONFIG.MAX_ACTIVE_PLAYERS` from `types/multiview`. -/
def MAX_ACTIVE_PLAYERS : Nat := 6

/-- Function `activatePlayer` from `usePlayerPool`: if the id is already
active only the order is updated (move to front), otherwise it is inserted
at the front and the list is truncated to `maxPlayers` elements when it got
too long (`next.slice(0, maxPlayers)`). -/
def activatePlayer (maxPlayers : Nat) (cellId : String) (prev : List String) :
    List String :=
  if cellId ∈ prev then
    cellId :: prev.filter (fun id => id != cellId)
  else
    let next := cellId :: prev
    if next.length > maxPlayers then next.take maxPlayers else next

/-- Function `deactivatePlayer` from `usePlayerPool`: remove the id. -/
def deactivatePlayer (cellId : String) (prev : List String) : List String :=
  prev.filter (fun id => id != cellId)

/-- Function `deactivateAll` from `usePlayerPool`: clear the pool. -/
def deactivateAll (_prev : List String) : List String := []

/-- Function `getPlayerToEvict`: the last (least recently activated) id,
if any. -/
def getPlayerToEvict (activeIds : List String) : Option String :=
  if activeIds.length = 0 then none else activeIds[activeIds.length - 1]?

/-- One user-visible pool operation. -/
inductive PoolOp where
  | activate (cellId : String)
  | deactivate (cellId : String)
  | deactivateAll
deriving DecidableEq, Repr

/-- Apply one pool operation to the pool state. -/
def poolStep (maxPlayers : Nat) (pool : List String) : PoolOp → List String
  | .activate cellId => activatePlayer maxPlayers cellId pool
  | .deactivate cellId => deactivatePlayer cellId pool
  | .deactivateAll => deactivateAll pool

/-- Run a sequence of pool operations starting from the empty pool
(`useState<string[]>([])`). -/
def runPool (maxPlayers : Nat) (ops : List PoolOp) : List String :=
  ops.foldl (poolStep maxPlayers) []

/-- The pool invariant: bounded length and no duplicate ids. -/
def PoolInv (maxPlayers : Nat) (pool : List String) : Prop :=
  pool.length ≤ maxPlayers ∧ pool.Nodup

/-!
Definitions: grid model and data types (`types/multiview`).
-/

/-- Constant `GRID_CONFIG.COLS`. -/
def COLS : Int := 24
/-- Constant `GRID_CONFIG.ROWS`. -/
def ROWS : Int := 24
/-- Constant `GRID_CONFIG.MIN_W`. -/
def MIN_W : Int := 2
/-- Constant `GRID_CONFIG.MIN_H`. -/
def MIN_H : Int := 2

/-- Interface `LayoutItem` from `types/multiview` (react-grid-layout
compatible).  The `y` coordinate is `Option Int`: `none` models the
`Infinity` sentinel written by `reconcileLayout`, `some n` a finite
coordinate.  The optional boolean fields (`isDraggable?`, `isResizable?`,
`static?`) are `Option Bool` with `none` for an absent property. -/
structure LayoutItem where
  i : String
  x : Int
  y : Option Int
  w : Int
  h : Int
  isDraggable : Option Bool := none
  isResizable : Option Bool := none
  static : Option Bool := none
deriving DecidableEq, Repr

/-- Type `CellType` from `types/multiview`. -/
inductive CellType where
  | video
  | chat
  | empty
deriving DecidableEq, Repr

/-- Type `VideoSource` from `types/multiview`. -/
inductive VideoSource where
  | youtube
  | twitch
deriving DecidableEq, Repr

/-- Values of `VideoMetadata.status`. -/
inductive VideoStatus where
  | live
  | upcoming
  | past
deriving DecidableEq, Repr

/-- Interface `VideoMetadata` from `types/multiview`. -/
structure VideoMetadata where
  id : String
  title : String
  channelId : String
  channelName : String
  thumbnail : Option String := none
  status : Option VideoStatus := none
deriving DecidableEq, Repr

/-- Interface `CellContent` from `types/multiview`. -/
structure CellContent where
  id : String
  type : CellType
  videoId : Option String := none
  videoSource : Option VideoSource := none
  videoMeta : Option VideoMetadata := none
  chatTab : Option Int := none
deriving DecidableEq, Repr

/-- Interface `PlayerState` from `types/multiview`.  `playbackRate` is a
rational to accommodate non-integral rates. -/
structure PlayerState where
  cellId : String
  muted : Bool
  volume : Int
  playing : Bool
  currentTime : Option Int := none
  playbackRate : Option ℚ := none
deriving DecidableEq, Repr

/-- A `Record<string, CellContent>` as an insertion-ordered association
list; `Object.keys` is `List.map Prod.fst`. -/
abbrev ContentMap := List (String × CellContent)

/-- A `Record<string, PlayerState>`. -/
abbrev PlayerStateMap := List (String × PlayerState)

/-- The test `key in record`. -/
def hasKey {α : Type} (m : List (String × α)) (k : String) : Bool :=
  m.any (fun e => e.1 == k)

/-- The lookup `record[key]`. -/
def lookupEntry {α : Type} (m : List (String × α)) (k : String) : Option α :=
  (m.find? (fun e => e.1 == k)).map (·.2)

/-- The assignment `record[key] = value`: replace the entry in place if the
key exists (JavaScript objects keep the original key position), else append
it. -/
def setEntry {α : Type} (m : List (String × α)) (k : String) (v : α) :
    List (String × α) :=
  if hasKey m k then
    m.map (fun e => if e.1 == k then (k, v) else e)
  else
    m ++ [(k, v)]

/-!
Definitions: placement allocator (`findEmptyPosition` in
`multiviewStore.ts`).
-/

/-- The set of unit cells occupied by the layout, as built by
`findEmptyPosition`: for each item, the cells `(item.x + dx, item.y + dy)`
for `0 ≤ dx < item.w`, `0 ≤ dy < item.h` (the source keys them as strings
`` `${x},${y}` ``, which is injective on coordinates; `Infinity + dy` stays
`Infinity`, hence `Option.map`). -/
def occupiedCells (layout : List LayoutItem) : List (Int × Option Int) :=
  layout.flatMap (fun item =>
    (List.range item.w.toNat).flatMap (fun (dx : Nat) =>
      (List.range item.h.toNat).map (fun (dy : Nat) =>
        (item.x + (dx : Int), item.y.map (· + (dy : Int))))))

/-- The inner test of `findEmptyPosition`: the `width × height` rectangle
anchored at `(x, y)` hits no occupied cell. -/
def canPlace (occ : List (Int × Option Int)) (x y width height : Int) :
    Bool :=
  (List.range width.toNat).all (fun (dx : Nat) =>
    (List.range height.toNat).all (fun (dy : Nat) =>
      !decide ((x + (dx : Int), some (y + (dy : Int))) ∈ occ)))

/-- The candidate top-left positions scanned by `findEmptyPosition`, in
row-major order (`y` outer from `0` to `ROWS - height`, `x` inner from `0`
to `COLS - width`). -/
def scanCandidates (width height : Int) : List (Int × Int) :=
  (List.range (ROWS - height + 1).toNat).flatMap (fun (yn : Nat) =>
    (List.range (COLS - width + 1).toNat).map (fun (xn : Nat) =>
      ((xn : Int), (yn : Int))))

/-- Function `findEmptyPosition` from `multiviewStore.ts`: scan candidate
positions row-major (y outer, x inner) over the grid and return the first
one whose `width × height` rectangle overlaps no occupied cell; `none` when
no candidate fits. -/
def findEmptyPosition (layout : List LayoutItem) (width height : Int) :
    Option (Int × Int) :=
  let occ := occupiedCells layout
  (scanCandidates width height).find?
    (fun p => canPlace occ p.1 p.2 width height)

/-- The claim's in-bounds predicate: the `width × height` rectangle
anchored at `(x, y)` lies fully inside the `COLS × ROWS` grid. -/
def inBounds (width height x y : Int) : Prop :=
  0 ≤ x ∧ 0 ≤ y ∧ x + width ≤ COLS ∧ y + height ≤ ROWS

/-- The claim's non-overlap predicate: no unit cell of the
`width × height` rectangle anchored at `(x, y)` is occupied by an existing
item. -/
def rectFree (layout : List LayoutItem) (width height x y : Int) : Prop :=
  ∀ dx dy : Nat, dx < width.toNat → dy < height.toNat →
    ((x + (dx : Int), some (y + (dy : Int))) ∉ occupiedCells layout)

/-- Strict row-major order on positions (`y` first, then `x`). -/
def rowMajorLt (p q : Int × Int) : Prop :=
  p.2 < q.2 ∨ (p.2 = q.2 ∧ p.1 < q.1)

/-!
Definitions: clamp pass (`handleLayoutChange` in `MultiviewGrid.tsx`).
-/

/-- The `y` clamp of `handleLayoutChange`:
`Math.min(Math.max(0, item.y), GRID_CONFIG.ROWS - 1)`.  The `Infinity`
sentinel (`none`) clamps to `ROWS - 1`, since
`Math.min(Math.max(0, Infinity), ROWS - 1) = ROWS - 1`. -/
def clampYVal (y : Option Int) : Int :=
  match y with
  | none => ROWS - 1
  | some a => min (max 0 a) (ROWS - 1)

/-- The per-item clamping performed by `handleLayoutChange`: clamp `x` to
`[0, COLS - 1]` and `y` to `[0, ROWS - 1]`, then clamp `w` to
`[MIN_W, COLS - clampedX]` and `h` to `[MIN_H, ROWS - clampedY]` using the
already-clamped coordinates; `isDraggable`/`isResizable` become
`!item.static` and the converted item carries no `static` property. -/
def clampLayoutItem (item : LayoutItem) : LayoutItem :=
  let clampedX := min (max 0 item.x) (COLS - 1)
  let clampedY := clampYVal item.y
  { i := item.i
    x := clampedX
    y := some clampedY
    w := min (max MIN_W item.w) (COLS - clampedX)
    h := min (max MIN_H item.h) (ROWS - clampedY)
    isDraggable := some (!(item.static.getD false))
    isResizable := some (!(item.static.getD false))
    static := none }

/-!
Definitions: layout/content reconciler (`utils/layoutReconciler.ts`).
-/

/-- Function `sanitizeGhostReferences`: remove every layout item whose id
has no content entry (the `console.warn` side effect is dropped). -/
def sanitizeGhostReferences (layout : List LayoutItem) (content : ContentMap) :
    List LayoutItem :=
  layout.filter (fun item => hasKey content item.i)

/-- Function `reconcileLayout`: prune ghost references, then append a fresh
default item (`y: Infinity`, modelled as `y = none`) for every content id
missing from the layout, offset horizontally by index. -/
def reconcileLayout (targetLayout : Option (List LayoutItem))
    (activeContent : ContentMap) (cols : Int := 4) : List LayoutItem :=
  let layout := targetLayout.getD []
  let prunedLayout := sanitizeGhostReferences layout activeContent
  let layoutIds := prunedLayout.map LayoutItem.i
  let missingContentIds := (activeContent.map Prod.fst).filter
    (fun id => !(layoutIds.contains id))
  let newItems : List LayoutItem := missingContentIds.enum.map (fun p =>
    { i := p.2
      x := ((p.1 : Int) % cols) * (cols / 2)
      y := none
      w := cols / 2
      h := 2
      isDraggable := some true
      isResizable := some true })
  prunedLayout ++ newItems

/-!
Definitions: multiview store (`stores/multiviewStore.ts`).
-/

/-- Function `createDefaultPlayerState`: muted by default, volume 50, not
playing, rate `1.0`. -/
def createDefaultPlayerState (cellId : String) : PlayerState :=
  { cellId := cellId
    muted := true
    volume := 50
    playing := false
    currentTime := none
    playbackRate := some 1 }

/-- The store state managed by `useMultiviewStore`. -/
structure MultiviewState where
  layout : List LayoutItem
  content : ContentMap
  playerStates : PlayerStateMap
  muteOthersEnabled : Bool
  activePresetId : Option String
  isLoading : Bool
  error : Option String
deriving DecidableEq, Repr

/-- The store's `initialState`. -/
def initialState : MultiviewState :=
  { layout := []
    content := []
    playerStates := []
    muteOthersEnabled := true
    activePresetId := none
    isLoading := false
    error := none }

/-- The capacity-cap error message set by `addCell`
(`해당 크기의 셀은 최대 N개까지만 생성 가능합니다.`). -/
def maxCountErrorMsg (m : Nat) : String :=
  "해당 크기의 셀은 최대 " ++ toString m ++ "개까지만 생성 가능합니다."

/-- The no-free-space error message set by `addCell`. -/
def noSpaceErrorMsg : String :=
  "빈 공간이 없어 셀을 추가할 수 없습니다. 기존 셀을 정리하거나 크기를 조절해주세요."

/-- Action `addCell` from the store.  The random `generateCellId()` is
passed in as `newCellId`.  The guard
`options?.maxCount && layout.length >= maxCount` (JavaScript truthiness:
`maxCount = 0` disables the cap) is checked first, against the total layout
length; then a position is searched (requested size, or the default 4 × 2)
and the new cell, its empty content and its default player state are
committed, or the no-space error is set. -/
def addCell (s : MultiviewState) (newCellId : String)
    (size : Option (Int × Int)) (maxCount : Option Nat) : MultiviewState :=
  if (match maxCount with
      | some m => m != 0 && decide (m ≤ s.layout.length)
      | none => false) then
    { s with error := some (maxCountErrorMsg (maxCount.getD 0)) }
  else
    let result : Option (Int × Int × Int × Int) :=
      match size with
      | some (w, h) =>
        (findEmptyPosition s.layout w h).map (fun p => (p.1, p.2, w, h))
      | none =>
        (findEmptyPosition s.layout 4 2).map
          (fun p => (p.1, p.2, (4 : Int), (2 : Int)))
    match result with
    | none => { s with error := some noSpaceErrorMsg }
    | some (x, y, w, h) =>
      { s with
        layout := s.layout ++
          [{ i := newCellId, x := x, y := some y, w := w, h := h,
             isDraggable := some true, isResizable := some true }]
        content := setEntry s.content newCellId
          { id := newCellId, type := CellType.empty }
        playerStates := setEntry s.playerStates newCellId
          (createDefaultPlayerState newCellId) }

/-- A demonstration state holding a single 2 × 2 cell. -/
def capDemoState : MultiviewState :=
  { initialState with
    layout := [⟨"a", 0, some 0, 2, 2, some true, some true, none⟩]
    content := [("a", { id := "a", type := CellType.empty })]
    playerStates := [("a", createDefaultPlayerState "a")] }

/-- A `Partial<PlayerState>` update; `none` marks an absent property. -/
structure PlayerStateUpdate where
  cellId : Option String := none
  muted : Option Bool := none
  volume : Option Int := none
  playing : Option Bool := none
  currentTime : Option Int := none
  playbackRate : Option ℚ := none
deriving DecidableEq, Repr

/-- JavaScript object spread `{ ...s, ...u }`: properties present in `u`
override those of `s`. -/
def applyUpdate (s : PlayerState) (u : PlayerStateUpdate) : PlayerState :=
  { cellId := u.cellId.getD s.cellId
    muted := u.muted.getD s.muted
    volume := u.volume.getD s.volume
    playing := u.playing.getD s.playing
    currentTime :=
      match u.currentTime with
      | some t => some t
      | none => s.currentTime
    playbackRate :=
      match u.playbackRate with
      | some r => some r
      | none => s.playbackRate }

/-- The object `{ ...undefined, ...stateUpdate }` the source builds in the
mute-others branch when the cell id is absent from `playerStates`: only the
update's own properties exist on it, so the remaining fields below are
arbitrary placeholders.  The claims only concern ids that are present,
where this value is never used. -/
def updateOnlyState (cellId : String) (u : PlayerStateUpdate) : PlayerState :=
  applyUpdate
    { cellId := cellId, muted := false, volume := 0, playing := false } u

/-- Action `setPlayerState` from the store: when `muteOthersEnabled` and
the update unmutes (`stateUpdate.muted === false`), every entry is
rewritten with `muted := id !== cellId` and the target entry is then merged
with the update; otherwise only the target entry (or a fresh default state)
is merged. -/
def setPlayerState (s : MultiviewState) (cellId : String)
    (stateUpdate : PlayerStateUpdate) : MultiviewState :=
  if s.muteOthersEnabled && stateUpdate.muted == some false then
    let newStates := s.playerStates.map
      (fun p => (p.1, { p.2 with muted := p.1 != cellId }))
    let merged := applyUpdate
      ((lookupEntry newStates cellId).getD (updateOnlyState cellId stateUpdate))
      stateUpdate
    { s with playerStates := setEntry newStates cellId merged }
  else
    let existing := (lookupEntry s.playerStates cellId).getD
      (createDefaultPlayerState cellId)
    { s with playerStates :=
        setEntry s.playerStates cellId (applyUpdate existing stateUpdate) }

/-- The stored state delivered by the `load_multiview_state` persistence
boundary. -/
structure StoredMultiviewState where
  layout : List LayoutItem
  content : ContentMap
  playerStates : PlayerStateMap
  muteOthersEnabled : Bool
  activePresetId : Option String
deriving DecidableEq, Repr

/-- The successful path of `loadState`: it first sets `isLoading`, clears
`error`, and then — when the boundary returns a non-null state — commits
`sanitizeGhostReferences(state.layout, state.content)` as the layout and
the remaining stored slices unchanged; a `null` answer only resets
`isLoading`. -/
def loadState (s : MultiviewState) (stored : Option StoredMultiviewState) :
    MultiviewState :=
  let s1 := { s with isLoading := true, error := none }
  match stored with
  | some st =>
    { s1 with
      layout := sanitizeGhostReferences st.layout st.content
      content := st.content
      playerStates := st.playerStates
      muteOthersEnabled := st.muteOthersEnabled
      activePresetId := st.activePresetId
      isLoading := false }
  | none => { s1 with isLoading := false }

/-!
Theorems: helper lemmas.
-/

theorem hasKey_iff {α : Type} (m : List (String × α)) (k : String) :
    hasKey m k = true ↔ k ∈ m.map Prod.fst := by
  simp [hasKey, List.any_eq_true, List.mem_map]

theorem activatePlayer_preserves (maxPlayers : Nat) (cellId : String)
    (pool : List String) (h : PoolInv maxPlayers pool) :
    PoolInv maxPlayers (activatePlayer maxPlayers cellId pool) := by
  obtain ⟨hlen, hnd⟩ := h
  unfold activatePlayer
  by_cases hmem : cellId ∈ pool
  · simp only [hmem, if_true]
    rw [← hnd.erase_eq_filter cellId]
    constructor
    · rw [List.length_cons, List.length_erase_of_mem hmem]
      have : 1 ≤ pool.length := List.length_pos.mpr (List.ne_nil_of_mem hmem)
      omega
    · exact (hnd.erase cellId).cons hnd.not_mem_erase
  · simp only [hmem, if_false]
    by_cases hbig : (cellId :: pool).length > maxPlayers
    · simp only [hbig, if_true]
      constructor
      · rw [List.length_take]
        exact Nat.min_le_left _ _
      · exact (List.take_sublist _ _).nodup (hnd.cons hmem)
    · simp only [hbig, if_false]
      constructor
      · simp only [List.length_cons] at hbig ⊢
        omega
      · exact hnd.cons hmem

theorem deactivatePlayer_preserves (maxPlayers : Nat) (cellId : String)
    (pool : List String) (h : PoolInv maxPlayers pool) :
    PoolInv maxPlayers (deactivatePlayer cellId pool) := by
  obtain ⟨hlen, hnd⟩ := h
  exact ⟨Nat.le_trans (List.length_filter_le _ _) hlen, hnd.filter _⟩

theorem poolStep_preserves (maxPlayers : Nat) (pool : List String)
    (op : PoolOp) (h : PoolInv maxPlayers pool) :
    PoolInv maxPlayers (poolStep maxPlayers pool op) := by
  cases op with
  | activate cellId => exact activatePlayer_preserves _ _ _ h
  | deactivate cellId => exact deactivatePlayer_preserves _ _ _ h
  | deactivateAll => exact ⟨Nat.zero_le _, List.nodup_nil⟩

theorem runPool_inv_aux (maxPlayers : Nat) (ops : List PoolOp)
    (pool : List String) (h : PoolInv maxPlayers pool) :
    PoolInv maxPlayers (ops.foldl (poolStep maxPlayers) pool) := by
  induction ops generalizing pool with
  | nil => exact h
  | cons op rest ih => exact ih _ (poolStep_preserves _ _ _ h)

theorem getPlayerToEvict_eq_getLast (l : List String) :
    getPlayerToEvict l = l.getLast? := by
  unfold getPlayerToEvict
  by_cases h : l.length = 0
  · rw [if_pos h, List.length_eq_zero.mp h, List.getLast?_nil]
  · rw [if_neg h, List.getLast?_eq_getElem?]

theorem getLast_not_mem_dropLast (l : List String) (hnd : l.Nodup)
    (hne : l ≠ []) : l.getLast hne ∉ l.dropLast := by
  intro hmem
  have heq := List.dropLast_append_getLast hne
  have h2 : (l.dropLast ++ [l.getLast hne]).Nodup := by rw [heq]; exact hnd
  rcases List.nodup_append.mp h2 with ⟨-, -, hdisj⟩
  exact hdisj hmem (by simp)

theorem canPlace_iff (layout : List LayoutItem) (x y width height : Int) :
    canPlace (occupiedCells layout) x y width height = true ↔
      rectFree layout width height x y := by
  simp only [canPlace, rectFree, List.all_eq_true, List.mem_range,
    Bool.not_eq_true', decide_eq_false_iff_not]
  constructor
  · intro h dx dy hdx hdy; exact h dx hdx dy hdy
  · intro h dx hdx dy hdy; exact h dx dy hdx hdy

theorem mem_scanCandidates (width height : Int) (p : Int × Int) :
    p ∈ scanCandidates width height ↔ inBounds width height p.1 p.2 := by
  obtain ⟨px, py⟩ := p
  unfold scanCandidates inBounds
  rw [List.mem_flatMap]
  constructor
  · rintro ⟨yn, hyn, hmem⟩
    rw [List.mem_map] at hmem
    obtain ⟨xn, hxn, heq⟩ := hmem
    rw [List.mem_range] at hyn hxn
    cases heq
    simp only [COLS, ROWS] at hyn hxn ⊢
    omega
  · rintro ⟨h1, h2, h3, h4⟩
    simp only [COLS, ROWS] at h3 h4
    refine ⟨py.toNat, ?_, ?_⟩
    · rw [List.mem_range]; simp only [ROWS]; omega
    · rw [List.mem_map]
      refine ⟨px.toNat, ?_, ?_⟩
      · rw [List.mem_range]; simp only [COLS]; omega
      · rw [Prod.mk.injEq]
        constructor <;> omega

theorem scanCandidates_pairwise (width height : Int) :
    (scanCandidates width height).Pairwise rowMajorLt := by
  unfold scanCandidates
  generalize (ROWS - height + 1).toNat = nY
  generalize (COLS - width + 1).toNat = nX
  induction nY with
  | zero => simp
  | succ n ih =>
    rw [List.range_succ, List.flatMap_append, List.pairwise_append]
    have hsingle : ([n] : List Nat).flatMap
        (fun (yn : Nat) => (List.range nX).map
          (fun (xn : Nat) => ((xn : Int), (yn : Int)))) =
        (List.range nX).map (fun (xn : Nat) => ((xn : Int), (n : Int))) := by
      simp
    rw [hsingle]
    refine ⟨ih, ?_, ?_⟩
    · rw [List.pairwise_map]
      refine List.Pairwise.imp ?_ (List.pairwise_lt_range nX)
      intro a b hab
      simp only [rowMajorLt]
      exact Or.inr ⟨by simp, by exact_mod_cast hab⟩
    · intro a ha b hb
      rw [List.mem_flatMap] at ha
      obtain ⟨yn, hyn, ha⟩ := ha
      rw [List.mem_map] at ha hb
      obtain ⟨xn, -, rfl⟩ := ha
      obtain ⟨xm, -, rfl⟩ := hb
      rw [List.mem_range] at hyn
      simp only [rowMajorLt]
      exact Or.inl (by exact_mod_cast hyn)

theorem find?_min_of_pairwise {α : Type} {R : α → α → Prop} {l : List α}
    {p : α → Bool} {a : α} (hp : l.Pairwise R) (h : l.find? p = some a) :
    ∀ b ∈ l, p b = true → a = b ∨ R a b := by
  induction l with
  | nil => cases h
  | cons x xs ih =>
    rcases List.pairwise_cons.mp hp with ⟨hx, hxs⟩
    by_cases hpx : p x = true
    · rw [List.find?_cons_of_pos _ hpx] at h
      obtain rfl : a = x := by injection h with h'; exact h'.symm
      intro b hb _
      rcases List.mem_cons.mp hb with rfl | hb'
      · exact Or.inl rfl
      · exact Or.inr (hx b hb')
    · rw [List.find?_cons_of_neg _ (by simpa using hpx)] at h
      intro b hb hpb
      rcases List.mem_cons.mp hb with rfl | hb'
      · exact absurd hpb hpx
      · exact ih hxs h b hb' hpb

theorem reconcileLayout_eq (L : List LayoutItem) (C : ContentMap)
    (cols : Int) :
    reconcileLayout (some L) C cols =
      sanitizeGhostReferences L C ++
        (((C.map Prod.fst).filter (fun id =>
          !(((sanitizeGhostReferences L C).map LayoutItem.i).contains
            id))).enum.map
            (fun p =>
              { i := p.2
                x := ((p.1 : Int) % cols) * (cols / 2)
                y := none
                w := cols / 2
                h := 2
                isDraggable := some true
                isResizable := some true })) := rfl

theorem ids_of_newItems (ids : List String) (cols : Int) :
    (ids.enum.map (fun p =>
      ({ i := p.2
         x := ((p.1 : Int) % cols) * (cols / 2)
         y := none
         w := cols / 2
         h := 2
         isDraggable := some true
         isResizable := some true } : LayoutItem))).map LayoutItem.i = ids := by
  rw [List.map_map]
  have : (LayoutItem.i ∘ fun p : Nat × String =>
      ({ i := p.2
         x := ((p.1 : Int) % cols) * (cols / 2)
         y := none
         w := cols / 2
         h := 2
         isDraggable := some true
         isResizable := some true } : LayoutItem)) = Prod.snd := rfl
  rw [this, List.enum_map_snd]

theorem mem_ids_sanitize (L : List LayoutItem) (C : ContentMap)
    (id : String) :
    id ∈ (sanitizeGhostReferences L C).map LayoutItem.i ↔
      (∃ item ∈ L, item.i = id) ∧ id ∈ C.map Prod.fst := by
  unfold sanitizeGhostReferences
  rw [List.mem_map]
  constructor
  · rintro ⟨item, hmem, rfl⟩
    rw [List.mem_filter] at hmem
    exact ⟨⟨item, hmem.1, rfl⟩, (hasKey_iff C item.i).mp hmem.2⟩
  · rintro ⟨⟨item, hmem, rfl⟩, hkey⟩
    refine ⟨item, ?_, rfl⟩
    rw [List.mem_filter]
    exact ⟨hmem, (hasKey_iff C item.i).mpr hkey⟩

theorem mem_ids_reconcile (L : List LayoutItem) (C : ContentMap)
    (cols : Int) (id : String) :
    id ∈ (reconcileLayout (some L) C cols).map LayoutItem.i ↔
      id ∈ C.map Prod.fst := by
  rw [reconcileLayout_eq, List.map_append, ids_of_newItems, List.mem_append]
  constructor
  · rintro (h | h)
    · exact ((mem_ids_sanitize L C id).mp h).2
    · exact (List.mem_filter.mp h).1
  · intro h
    by_cases hmem : id ∈ (sanitizeGhostReferences L C).map LayoutItem.i
    · exact Or.inl hmem
    · refine Or.inr ?_
      rw [List.mem_filter]
      refine ⟨h, ?_⟩
      simp only [Bool.not_eq_true']
      rw [← Bool.not_eq_true, List.elem_iff]
      exact hmem

theorem reconcileLayout_fixed (R : List LayoutItem) (C : ContentMap)
    (cols : Int) (h1 : ∀ item ∈ R, hasKey C item.i = true)
    (h2 : ∀ k ∈ C.map Prod.fst, k ∈ R.map LayoutItem.i) :
    reconcileLayout (some R) C cols = R := by
  rw [reconcileLayout_eq]
  have hfil : sanitizeGhostReferences R C = R :=
    List.filter_eq_self.mpr h1
  rw [hfil]
  have hnil : (C.map Prod.fst).filter
      (fun id => !((R.map LayoutItem.i).contains id)) = [] := by
    rw [List.filter_eq_nil_iff]
    intro k hk
    simp only [Bool.not_eq_true', Bool.not_eq_false]
    exact List.elem_iff.mpr (h2 k hk)
  rw [hnil]
  simp

theorem find?_beq_key_unique {α : Type} (l : List (String × α))
    (hnd : (l.map Prod.fst).Nodup) (k : String) (v : String × α)
    (hf : l.find? (fun e => e.1 == k) = some v) :
    ∀ p ∈ l, p.1 = k → p = v := by
  induction l with
  | nil => intro p hp; cases hp
  | cons q t ih =>
    rw [List.map_cons, List.nodup_cons] at hnd
    obtain ⟨hq, hndt⟩ := hnd
    by_cases hqk : q.1 = k
    · rw [List.find?_cons_of_pos _ (by simpa using hqk)] at hf
      obtain rfl : v = q := by injection hf with h; exact h.symm
      intro p hp hpk
      rcases List.mem_cons.mp hp with rfl | hpt
      · rfl
      · exact absurd (hqk ▸ hpk ▸ List.mem_map.mpr ⟨p, hpt, rfl⟩) hq
    · rw [List.find?_cons_of_neg _ (by simpa using hqk)] at hf
      intro p hp hpk
      rcases List.mem_cons.mp hp with rfl | hpt
      · exact absurd hpk hqk
      · exact ih hndt hf p hpt hpk

theorem lookupEntry_some_elim {α : Type} (l : List (String × α)) (k : String)
    (v : α) (h : lookupEntry l k = some v) :
    l.find? (fun e => e.1 == k) = some (k, v) := by
  unfold lookupEntry at h
  cases hf : l.find? (fun e => e.1 == k) with
  | none => rw [hf] at h; cases h
  | some q =>
    rw [hf] at h
    obtain rfl : q.2 = v := by injection h
    have hkey := List.find?_some hf
    have : q.1 = k := by simpa using hkey
    rw [← this]

theorem applyUpdate_muted_irrel (s : PlayerState) (u : PlayerStateUpdate)
    (b : Bool) (hmuted : u.muted = some false) :
    applyUpdate { s with muted := b } u = applyUpdate s u := by
  simp [applyUpdate, hmuted]

/-!
Theorems: the claims.
-/

/-- C1.  Starting from an empty pool, after any finite sequence of
`activatePlayer`, `deactivatePlayer` and `deactivateAll` calls, the active
player id list has length at most `maxPlayers` and contains no duplicate
ids.  (Stated for every bound, in particular the default
`MAX_ACTIVE_PLAYERS = 6`.) -/
theorem pool_bounded_nodup (maxPlayers : Nat) (ops : List PoolOp) :
    (runPool maxPlayers ops).length ≤ maxPlayers ∧
      (runPool maxPlayers ops).Nodup :=
  runPool_inv_aux maxPlayers ops [] ⟨Nat.zero_le _, List.nodup_nil⟩

/-- C2.  If the pool holds exactly `maxPlayers` ids (0 < `maxPlayers`) and
`activatePlayer` is called with an id not in the pool, the result is the
new id followed by all previous ids except the last: the new id is at the
front, the size is still `maxPlayers`, and the single id removed is exactly
the least recently activated one — the tail, which is also what
`getPlayerToEvict` designates. -/
theorem activatePlayer_full_evicts_lru (maxPlayers : Nat) (cellId : String)
    (prev : List String) (hpos : 0 < maxPlayers)
    (hlen : prev.length = maxPlayers) (hmem : cellId ∉ prev)
    (hnd : prev.Nodup) :
    activatePlayer maxPlayers cellId prev = cellId :: prev.dropLast ∧
      (activatePlayer maxPlayers cellId prev).length = maxPlayers ∧
      ∀ x, (x ∈ prev ∧ x ∉ activatePlayer maxPlayers cellId prev) ↔
        getPlayerToEvict prev = some x := by
  have hne : prev ≠ [] := by
    intro h; rw [h] at hlen; simp at hlen; omega
  have hmain : activatePlayer maxPlayers cellId prev =
      cellId :: prev.dropLast := by
    unfold activatePlayer
    rw [if_neg hmem]
    have hbig : (cellId :: prev).length > maxPlayers := by
      simp [hlen]
    rw [if_pos hbig]
    obtain ⟨n, hn⟩ : ∃ n, maxPlayers = n + 1 := ⟨maxPlayers - 1, by omega⟩
    subst hn
    rw [List.take_cons (by omega), List.dropLast_eq_take, hlen]
  refine ⟨hmain, ?_, ?_⟩
  · rw [hmain, List.length_cons, List.length_dropLast, hlen]
    omega
  · intro x
    rw [hmain, getPlayerToEvict_eq_getLast, List.getLast?_eq_getLast prev hne]
    constructor
    · rintro ⟨hx, hnx⟩
      simp only [List.mem_cons, not_or] at hnx
      obtain ⟨hx1, hx2⟩ := hnx
      rcases (List.mem_append.mp
        (by rw [List.dropLast_append_getLast hne]; exact hx)) with h | h
      · exact absurd h hx2
      · simp only [List.mem_singleton] at h
        rw [h]
    · rintro h
      obtain rfl : x = prev.getLast hne := by injection h with h'; exact h'.symm
      refine ⟨List.getLast_mem hne, ?_⟩
      simp only [List.mem_cons, not_or]
      exact ⟨fun h' => hmem (h' ▸ List.getLast_mem hne),
        getLast_not_mem_dropLast prev hnd hne⟩

/-- Scenario B witness for C2: with `maxPlayers = 6`, activating
`a, b, c, d, e, f` yields pool `[f, e, d, c, b, a]`, and then activating
`g` evicts `a`, giving `[g, f, e, d, c, b]`. -/
theorem activatePlayer_full_evicts_lru_witness :
    runPool 6 [.activate "a", .activate "b", .activate "c", .activate "d",
      .activate "e", .activate "f"] = ["f", "e", "d", "c", "b", "a"] ∧
      activatePlayer 6 "g" ["f", "e", "d", "c", "b", "a"] =
        ["g", "f", "e", "d", "c", "b"] := by
  refine ⟨by decide, ?_⟩
  have h := activatePlayer_full_evicts_lru 6 "g" ["f", "e", "d", "c", "b", "a"]
    (by decide) (by decide) (by decide) (by decide)
  rw [h.1]
  decide

/-- C3.  If `activatePlayer cellId` is called with `cellId` already in the
pool, the resulting pool has the same length and the same set of ids as
before, with `cellId` moved to the front. -/
theorem activatePlayer_resident (maxPlayers : Nat) (cellId : String)
    (prev : List String) (hmem : cellId ∈ prev) (hnd : prev.Nodup) :
    (activatePlayer maxPlayers cellId prev).length = prev.length ∧
      (∀ x, x ∈ activatePlayer maxPlayers cellId prev ↔ x ∈ prev) ∧
      (activatePlayer maxPlayers cellId prev).head? = some cellId := by
  unfold activatePlayer
  rw [if_pos hmem, ← hnd.erase_eq_filter cellId]
  have hpos : 1 ≤ prev.length := List.length_pos.mpr (List.ne_nil_of_mem hmem)
  refine ⟨?_, ?_, rfl⟩
  · rw [List.length_cons, List.length_erase_of_mem hmem]
    omega
  · intro x
    rw [List.mem_cons, hnd.mem_erase_iff]
    constructor
    · rintro (rfl | ⟨-, hx⟩)
      · exact hmem
      · exact hx
    · intro hx
      by_cases hxc : x = cellId
      · exact Or.inl hxc
      · exact Or.inr ⟨hxc, hx⟩

/-- Witness for C3: activating resident id `b` in pool `[a, b, c]` keeps
length 3 and membership, and moves `b` to the front. -/
theorem activatePlayer_resident_witness :
    (activatePlayer 6 "b" ["a", "b", "c"]).length = 3 ∧
      ("c" ∈ activatePlayer 6 "b" ["a", "b", "c"]) ∧
      (activatePlayer 6 "b" ["a", "b", "c"]).head? = some "b" := by
  have h := activatePlayer_resident 6 "b" ["a", "b", "c"]
    (by decide) (by decide)
  exact ⟨h.1, (h.2.1 "c").mpr (by decide), h.2.2⟩

/-- C4.  `reconcileLayout` is idempotent: reconciling the result of a
reconciliation (against the same content) is a no-op; and reconciling a
layout already consistent with the content (same id sets) returns it
unchanged. -/
theorem reconcileLayout_idempotent (L : List LayoutItem) (C : ContentMap)
    (cols : Int) :
    reconcileLayout (some (reconcileLayout (some L) C cols)) C cols =
      reconcileLayout (some L) C cols ∧
      ((∀ id, id ∈ L.map LayoutItem.i ↔ id ∈ C.map Prod.fst) →
        reconcileLayout (some L) C cols = L) := by
  constructor
  · apply reconcileLayout_fixed
    · intro item hmem
      rw [hasKey_iff]
      exact (mem_ids_reconcile L C cols item.i).mp
        (List.mem_map.mpr ⟨item, hmem, rfl⟩)
    · intro k hk
      exact (mem_ids_reconcile L C cols k).mpr hk
  · intro hcons
    apply reconcileLayout_fixed
    · intro item hmem
      rw [hasKey_iff]
      exact (hcons item.i).mp (List.mem_map.mpr ⟨item, hmem, rfl⟩)
    · intro k hk
      exact (hcons k).mpr hk

/-- Witness for C4: a concrete already-consistent layout is returned
unchanged, obtained by applying the theorem. -/
theorem reconcileLayout_idempotent_witness :
    reconcileLayout (some [⟨"x", 0, some 0, 2, 2, some true, some true, none⟩])
        [("x", { id := "x", type := CellType.empty })] 4 =
      [⟨"x", 0, some 0, 2, 2, some true, some true, none⟩] :=
  (reconcileLayout_idempotent
    [⟨"x", 0, some 0, 2, 2, some true, some true, none⟩]
    [("x", { id := "x", type := CellType.empty })] 4).2 (fun _ => Iff.rfl)

/-- C5, counterexample.  The claim fails on the code for a layout list with
a duplicated id: with two layout items both named `"x"` and content `{x}`,
both items survive pruning, so `"x"` appears twice in the result, not
exactly once. -/
theorem reconcileLayout_dup_counterexample :
    ¬ (((reconcileLayout
        (some [⟨"x", 0, some 0, 2, 2, some true, some true, none⟩,
               ⟨"x", 2, some 0, 2, 2, some true, some true, none⟩])
        [("x", { id := "x", type := CellType.empty })] 4).map
          LayoutItem.i).count "x" = 1) := by
  decide

/-- C5, amended.  For every layout list `L` and content map `C`, the set of
item ids of `reconcileLayout L C` equals the set of keys of `C`; and when
the ids of `L` are pairwise distinct, an id present both in `L` and in `C`
appears exactly once in the result (for duplicated layout ids every
duplicate survives, as the counterexample shows). -/
theorem reconcileLayout_id_sets (L : List LayoutItem) (C : ContentMap)
    (cols : Int) :
    (∀ id, id ∈ (reconcileLayout (some L) C cols).map LayoutItem.i ↔
      id ∈ C.map Prod.fst) ∧
      ((L.map LayoutItem.i).Nodup → ∀ id, id ∈ L.map LayoutItem.i →
        id ∈ C.map Prod.fst →
          ((reconcileLayout (some L) C cols).map LayoutItem.i).count id
            = 1) := by
  refine ⟨mem_ids_reconcile L C cols, ?_⟩
  intro hnd id hidL hidC
  rw [reconcileLayout_eq, List.map_append, ids_of_newItems, List.count_append]
  have hpruned_mem : id ∈ (sanitizeGhostReferences L C).map LayoutItem.i := by
    rw [mem_ids_sanitize]
    obtain ⟨item, hmem, rfl⟩ := List.mem_map.mp hidL
    exact ⟨⟨item, hmem, rfl⟩, hidC⟩
  have hpruned : ((sanitizeGhostReferences L C).map LayoutItem.i).count id
      = 1 := by
    have hle : ((sanitizeGhostReferences L C).map LayoutItem.i).count id ≤
        (L.map LayoutItem.i).count id :=
      ((List.filter_sublist L).map LayoutItem.i).count_le id
    have hone : (L.map LayoutItem.i).count id = 1 :=
      List.count_eq_one_of_mem hnd hidL
    have hpos : 1 ≤ ((sanitizeGhostReferences L C).map LayoutItem.i).count id :=
      List.count_pos_iff.mpr hpruned_mem
    omega
  have hmissing : ((C.map Prod.fst).filter (fun k =>
      !(((sanitizeGhostReferences L C).map LayoutItem.i).contains k))).count id
        = 0 := by
    rw [List.count_eq_zero]
    intro hmem
    rw [List.mem_filter] at hmem
    have := hmem.2
    simp only [Bool.not_eq_true', ← Bool.not_eq_true, List.elem_iff] at this
    exact this hpruned_mem
  omega

/-- Scenario C witness for C5: layout `[x, y, w]`, content `{x, y, z}`: the
result's id set is `{x, y, z}` (`w` pruned, `z` appended), and `x` appears
exactly once. -/
theorem reconcileLayout_id_sets_witness :
    ("z" ∈ (reconcileLayout
        (some [⟨"x", 0, some 0, 2, 2, some true, some true, none⟩,
               ⟨"y", 2, some 0, 2, 2, some true, some true, none⟩,
               ⟨"w", 4, some 0, 2, 2, some true, some true, none⟩])
        [("x", { id := "x", type := CellType.empty }),
         ("y", { id := "y", type := CellType.empty }),
         ("z", { id := "z", type := CellType.empty })] 4).map LayoutItem.i) ∧
      ("w" ∉ (reconcileLayout
        (some [⟨"x", 0, some 0, 2, 2, some true, some true, none⟩,
               ⟨"y", 2, some 0, 2, 2, some true, some true, none⟩,
               ⟨"w", 4, some 0, 2, 2, some true, some true, none⟩])
        [("x", { id := "x", type := CellType.empty }),
         ("y", { id := "y", type := CellType.empty }),
         ("z", { id := "z", type := CellType.empty })] 4).map LayoutItem.i) ∧
      ((reconcileLayout
        (some [⟨"x", 0, some 0, 2, 2, some true, some true, none⟩,
               ⟨"y", 2, some 0, 2, 2, some true, some true, none⟩,
               ⟨"w", 4, some 0, 2, 2, some true, some true, none⟩])
        [("x", { id := "x", type := CellType.empty }),
         ("y", { id := "y", type := CellType.empty }),
         ("z", { id := "z", type := CellType.empty })] 4).map
          LayoutItem.i).count "x" = 1 := by
  have h := reconcileLayout_id_sets
    [⟨"x", 0, some 0, 2, 2, some true, some true, none⟩,
     ⟨"y", 2, some 0, 2, 2, some true, some true, none⟩,
     ⟨"w", 4, some 0, 2, 2, some true, some true, none⟩]
    [("x", { id := "x", type := CellType.empty }),
     ("y", { id := "y", type := CellType.empty }),
     ("z", { id := "z", type := CellType.empty })] 4
  refine ⟨(h.1 "z").mpr (by decide), ?_,
    h.2 (by decide) "x" (by decide) (by decide)⟩
  intro hmem
  have := (h.1 "w").mp hmem
  revert this
  decide

/-- C6.  `findEmptyPosition` returns the first position in row-major scan
order (y outer, x inner) at which the `width × height` rectangle lies fully
inside the `COLS × ROWS` grid and overlaps no occupied unit cell; if no
such position exists it returns `none` — never an out-of-bounds or
overlapping position.  (Determinism is immediate: it is a function of the
layout and the size.) -/
theorem findEmptyPosition_correct (layout : List LayoutItem)
    (width height : Int) :
    (∀ x y, findEmptyPosition layout width height = some (x, y) →
      inBounds width height x y ∧ rectFree layout width height x y ∧
        ∀ x' y', inBounds width height x' y' →
          rectFree layout width height x' y' →
            (x = x' ∧ y = y') ∨ rowMajorLt (x, y) (x', y')) ∧
    (findEmptyPosition layout width height = none →
      ∀ x y, inBounds width height x y →
        ¬ rectFree layout width height x y) := by
  constructor
  · intro x y hfind
    unfold findEmptyPosition at hfind
    have hmem := List.mem_of_find?_eq_some hfind
    have hsat := List.find?_some hfind
    refine ⟨(mem_scanCandidates width height (x, y)).mp hmem,
      (canPlace_iff layout x y width height).mp hsat, ?_⟩
    intro x' y' hin' hfree'
    have hmem' := (mem_scanCandidates width height (x', y')).mpr hin'
    have hsat' := (canPlace_iff layout x' y' width height).mpr hfree'
    rcases find?_min_of_pairwise (scanCandidates_pairwise width height)
      hfind (x', y') hmem' hsat' with heq | hlt
    · exact Or.inl (by injection heq with h1 h2; exact ⟨h1, h2⟩)
    · exact Or.inr hlt
  · intro hnone x y hin hfree
    unfold findEmptyPosition at hnone
    have := List.find?_eq_none.mp hnone (x, y)
      ((mem_scanCandidates width height (x, y)).mpr hin)
    rw [(canPlace_iff layout x y width height).mpr hfree] at this
    simp at this

/-- Witness for C6: on the empty layout, a 4 × 2 request is placed at the
origin, which is in-bounds, overlap-free and row-major minimal. -/
theorem findEmptyPosition_correct_witness :
    inBounds 4 2 0 0 ∧ rectFree [] 4 2 0 0 ∧
      ∀ x' y', inBounds 4 2 x' y' → rectFree [] 4 2 x' y' →
        ((0 : Int) = x' ∧ (0 : Int) = y') ∨ rowMajorLt (0, 0) (x', y') :=
  (findEmptyPosition_correct [] 4 2).1 0 0 (by decide)

/-- C7, counterexample.  The claim fails on the code: for the Scenario D
item `x = 23, y = 23, w = 4, h = 4`, the committed clamped item has
`w = 1 < MIN_W` and `h = 1 < MIN_H`, because `handleLayoutChange` clamps
`x` to `[0, COLS - 1]` (not `[0, COLS - MIN_W]`), so at the grid edge the
width clamp `min(max(MIN_W, w), COLS - clampedX)` drops below `MIN_W`. -/
theorem clampLayoutItem_counterexample :
    (clampLayoutItem ⟨"d", 23, some 23, 4, 4, some true, some true, none⟩).w
        < MIN_W ∧
      (clampLayoutItem ⟨"d", 23, some 23, 4, 4, some true, some true, none⟩).h
        < MIN_H := by
  decide

/-- C7, amended.  For every layout item with arbitrary coordinates, the
item committed by `handleLayoutChange` satisfies `0 ≤ x`, `0 ≤ y`,
`x + w ≤ COLS`, `y + h ≤ ROWS` and `w ≥ 1`, `h ≥ 1`; the full minimum-size
invariants `w ≥ MIN_W` and `h ≥ MIN_H` hold whenever the input coordinates
satisfy `x ≤ COLS - MIN_W` resp. `y ≤ ROWS - MIN_H` (they can fail at the
grid edge, as the counterexample shows). -/
theorem clampLayoutItem_invariants (item : LayoutItem) :
    0 ≤ (clampLayoutItem item).x ∧
      (clampLayoutItem item).y = some (clampYVal item.y) ∧
      0 ≤ clampYVal item.y ∧
      (clampLayoutItem item).x + (clampLayoutItem item).w ≤ COLS ∧
      clampYVal item.y + (clampLayoutItem item).h ≤ ROWS ∧
      1 ≤ (clampLayoutItem item).w ∧
      1 ≤ (clampLayoutItem item).h ∧
      (item.x ≤ COLS - MIN_W → MIN_W ≤ (clampLayoutItem item).w) ∧
      (∀ a, item.y = some a → a ≤ ROWS - MIN_H →
        MIN_H ≤ (clampLayoutItem item).h) := by
  unfold clampLayoutItem
  simp only [COLS, ROWS, MIN_W, MIN_H]
  cases hy : item.y with
  | none =>
    simp only [clampYVal, hy, ROWS]
    refine ⟨by omega, by trivial, by omega, by omega, by omega, by omega,
      by omega, by intro h; omega, ?_⟩
    intro a ha
    cases ha
  | some a =>
    simp only [clampYVal, hy, ROWS]
    refine ⟨by omega, by trivial, by omega, by omega, by omega, by omega,
      by omega, by intro h; omega, ?_⟩
    intro b hb hble
    obtain rfl : a = b := by injection hb
    omega

/-- Witness for C7 (amended): an in-range item keeps the minimum-size
invariants after clamping. -/
theorem clampLayoutItem_invariants_witness :
    MIN_W ≤ (clampLayoutItem ⟨"c", 1, some 1, 30, 0, none, none, none⟩).w ∧
      MIN_H ≤ (clampLayoutItem ⟨"c", 1, some 1, 30, 0, none, none, none⟩).h := by
  have h := clampLayoutItem_invariants ⟨"c", 1, some 1, 30, 0, none, none, none⟩
  exact ⟨h.2.2.2.2.2.2.2.1 (by decide), h.2.2.2.2.2.2.2.2 1 rfl (by decide)⟩

/-- C8, counterexample.  The claim fails on the code: `loadState` runs only
the pruning phase, never the appending phase.  For a stored state with
empty layout and a content entry `"z"`, the committed state keeps content
key `"z"` but synthesizes no layout item for it, so the layout id set is
not the content id set. -/
theorem loadState_counterexample :
    ("z" ∈ (loadState initialState
        (some ⟨[], [("z", { id := "z", type := CellType.empty })], [],
          true, none⟩)).content.map Prod.fst) ∧
      ("z" ∉ (loadState initialState
        (some ⟨[], [("z", { id := "z", type := CellType.empty })], [],
          true, none⟩)).layout.map LayoutItem.i) := by
  decide

/-- C8, amended.  Whenever `loadState` receives a non-null stored state,
the committed in-memory state satisfies the pruning half of reconciliation:
the committed layout consists exactly of the stored layout items whose id
has a content entry (every ghost item is pruned, and content is committed
unchanged), hence every committed layout id has a content entry.  Orphan
content ids are not given synthesized layout items. -/
theorem loadState_prunes_ghosts (s : MultiviewState)
    (st : StoredMultiviewState) :
    (∀ item, item ∈ (loadState s (some st)).layout ↔
      item ∈ st.layout ∧ item.i ∈ st.content.map Prod.fst) ∧
      (loadState s (some st)).content = st.content ∧
      (∀ item ∈ (loadState s (some st)).layout,
        item.i ∈ (loadState s (some st)).content.map Prod.fst) := by
  have hlay : (loadState s (some st)).layout =
      sanitizeGhostReferences st.layout st.content := rfl
  have hcont : (loadState s (some st)).content = st.content := rfl
  have hmem : ∀ item, item ∈ (loadState s (some st)).layout ↔
      item ∈ st.layout ∧ item.i ∈ st.content.map Prod.fst := by
    intro item
    rw [hlay]
    unfold sanitizeGhostReferences
    rw [List.mem_filter, hasKey_iff]
  exact ⟨hmem, hcont, fun item hitem =>
    hcont ▸ ((hmem item).mp hitem).2⟩

/-- Witness for C8 (amended): a stored state with a ghost item `"g"` and a
live item `"x"` commits exactly the pruned layout. -/
theorem loadState_prunes_ghosts_witness :
    ((⟨"x", 0, some 0, 2, 2, some true, some true, none⟩ : LayoutItem) ∈
      (loadState initialState (some
        ⟨[⟨"x", 0, some 0, 2, 2, some true, some true, none⟩,
          ⟨"g", 2, some 0, 2, 2, some true, some true, none⟩],
         [("x", { id := "x", type := CellType.empty })], [],
         true, none⟩)).layout) ∧
      ((⟨"g", 2, some 0, 2, 2, some true, some true, none⟩ : LayoutItem) ∉
        (loadState initialState (some
          ⟨[⟨"x", 0, some 0, 2, 2, some true, some true, none⟩,
            ⟨"g", 2, some 0, 2, 2, some true, some true, none⟩],
           [("x", { id := "x", type := CellType.empty })], [],
           true, none⟩)).layout) := by
  have h := loadState_prunes_ghosts initialState
    ⟨[⟨"x", 0, some 0, 2, 2, some true, some true, none⟩,
      ⟨"g", 2, some 0, 2, 2, some true, some true, none⟩],
     [("x", { id := "x", type := CellType.empty })], [], true, none⟩
  constructor
  · exact (h.1 _).mpr (by decide)
  · intro hmem
    have := (h.1 _).mp hmem
    revert this
    decide

/-- C9, counterexample.  The claim fails on the code: the soft cap is
checked against the total number of cells, not the number of cells of the
requested size class.  `capDemoState` holds one 2 × 2 cell and zero 4 × 4
cells, and free space for a 4 × 4 cell exists at `(2, 0)`; yet
`addCell (size 4 × 4, maxCount 1)` adds nothing and reports the capacity
message, because `layout.length = 1 ≥ maxCount`. -/
theorem addCell_sizeClass_counterexample :
    (capDemoState.layout.filter (fun it => it.w == 4 && it.h == 4)).length
        = 0 ∧
      findEmptyPosition capDemoState.layout 4 4 = some (2, 0) ∧
      (addCell capDemoState "new" (some (4, 4)) (some 1)).layout =
        capDemoState.layout ∧
      (addCell capDemoState "new" (some (4, 4)) (some 1)).content =
        capDemoState.content ∧
      (addCell capDemoState "new" (some (4, 4)) (some 1)).playerStates =
        capDemoState.playerStates ∧
      (addCell capDemoState "new" (some (4, 4)) (some 1)).error =
        some (maxCountErrorMsg 1) := by
  refine ⟨rfl, by decide, rfl, rfl, rfl, rfl⟩

/-- C9, amended.  When `addCell` is called with an `options.maxCount` soft
cap (`0 < maxCount`), the cap is checked before any placement attempt
against the total number of existing cells; when exceeded, no cell is
added — layout, content and player states are unchanged — and a capacity
error distinct from the no-free-space message is reported. -/
theorem addCell_capacity_cap (s : MultiviewState) (newCellId : String)
    (size : Option (Int × Int)) (m : Nat) (hm : 0 < m)
    (hlen : m ≤ s.layout.length) :
    addCell s newCellId size (some m) =
      { s with error := some (maxCountErrorMsg m) } ∧
      ∀ k, maxCountErrorMsg k ≠ noSpaceErrorMsg := by
  constructor
  · have hcond : (m != 0 && decide (m ≤ s.layout.length)) = true := by
      rw [Bool.and_eq_true, bne_iff_ne, decide_eq_true_eq]
      exact ⟨by omega, hlen⟩
    unfold addCell
    rw [if_pos hcond]
    rfl
  · intro k heq
    have hdata : (maxCountErrorMsg k).data =
        "해당 크기의 셀은 최대 ".data ++
          ((toString k).data ++ "개까지만 생성 가능합니다.".data) := by
      unfold maxCountErrorMsg
      rw [String.data_append, String.data_append, List.append_assoc]
    have h1 : (maxCountErrorMsg k).data.head? = some '해' := by
      rw [hdata]; rfl
    have h2 : noSpaceErrorMsg.data.head? = some '빈' := rfl
    rw [heq, h2] at h1
    exact absurd (Option.some.inj h1) (by decide)

/-- Witness for C9 (amended): applying the theorem at `capDemoState` with
cap 1. -/
theorem addCell_capacity_cap_witness :
    addCell capDemoState "new" none (some 1) =
      { capDemoState with error := some (maxCountErrorMsg 1) } ∧
      maxCountErrorMsg 1 ≠ noSpaceErrorMsg := by
  have h := addCell_capacity_cap capDemoState "new" none 1
    (by decide) (by decide)
  exact ⟨h.1, h.2 1⟩

/-- C10.  If `muteOthersEnabled` is true and `setPlayerState cellId u` is
called with `u.muted = false` for a `cellId` present in `playerStates`
(with the record's keys distinct, as JavaScript guarantees), then
afterwards every other entry is its previous value with `muted := true` and
all remaining fields unchanged, while the entry for `cellId` is its
previous value updated by `u` — in particular its `muted` is false. -/
theorem setPlayerState_muteOthers (s : MultiviewState) (cellId : String)
    (u : PlayerStateUpdate) (prev : PlayerState)
    (hmode : s.muteOthersEnabled = true) (hmuted : u.muted = some false)
    (hnd : (s.playerStates.map Prod.fst).Nodup)
    (hprev : lookupEntry s.playerStates cellId = some prev) :
    (setPlayerState s cellId u).playerStates =
      s.playerStates.map (fun p =>
        if p.1 = cellId then (p.1, applyUpdate p.2 u)
        else (p.1, { p.2 with muted := true })) ∧
      lookupEntry (setPlayerState s cellId u).playerStates cellId =
        some (applyUpdate prev u) ∧
      (applyUpdate prev u).muted = false := by
  have hcondeq : (s.muteOthersEnabled && u.muted == some false) = true := by
    rw [hmode, hmuted]
    rfl
  have hfind := lookupEntry_some_elim s.playerStates cellId prev hprev
  have hfind_new : (s.playerStates.map
      (fun p => (p.1, { p.2 with muted := p.1 != cellId }))).find?
        (fun e => e.1 == cellId) =
      some (cellId, { prev with muted := (cellId != cellId) }) := by
    rw [List.find?_map]
    have hcomp : ((fun e : String × PlayerState => e.1 == cellId) ∘
        (fun p : String × PlayerState =>
          (p.1, { p.2 with muted := p.1 != cellId }))) =
        (fun e : String × PlayerState => e.1 == cellId) := rfl
    rw [hcomp, hfind]
    rfl
  have hlook_new : lookupEntry (s.playerStates.map
      (fun p => (p.1, { p.2 with muted := p.1 != cellId }))) cellId =
      some { prev with muted := false } := by
    unfold lookupEntry
    rw [hfind_new]
    simp
  have hmerged : applyUpdate
      ((lookupEntry (s.playerStates.map
        (fun p => (p.1, { p.2 with muted := p.1 != cellId }))) cellId).getD
          (updateOnlyState cellId u)) u = applyUpdate prev u := by
    rw [hlook_new]
    exact applyUpdate_muted_irrel prev u false hmuted
  have hmain : (setPlayerState s cellId u).playerStates =
      s.playerStates.map (fun p =>
        if p.1 = cellId then (p.1, applyUpdate p.2 u)
        else (p.1, { p.2 with muted := true })) := by
    unfold setPlayerState
    rw [if_pos hcondeq]
    simp only
    rw [hmerged]
    have hhas : hasKey (s.playerStates.map
        (fun p => (p.1, { p.2 with muted := p.1 != cellId }))) cellId
        = true := by
      rw [hasKey_iff, List.map_map]
      have : (Prod.fst ∘ (fun p : String × PlayerState =>
          (p.1, { p.2 with muted := p.1 != cellId }))) = Prod.fst := rfl
      rw [this]
      exact List.mem_map.mpr
        ⟨(cellId, prev), List.mem_of_find?_eq_some hfind, rfl⟩
    unfold setEntry
    rw [if_pos hhas, List.map_map]
    apply List.map_congr_left
    intro p hp
    by_cases hpk : p.1 = cellId
    · obtain rfl : p = (cellId, prev) :=
        find?_beq_key_unique s.playerStates hnd cellId (cellId, prev)
          hfind p hp hpk
      simp only [Function.comp_apply, bne_self_eq_false, beq_self_eq_true,
        if_true, if_pos rfl]
    · have hbne : (p.1 != cellId) = true := by simpa using hpk
      have hbeq : (p.1 == cellId) = false := by simpa using hpk
      simp only [Function.comp_apply, hbne, hbeq, Bool.false_eq_true,
        if_false, if_neg hpk]
  refine ⟨hmain, ?_, ?_⟩
  · rw [hmain]
    unfold lookupEntry
    rw [List.find?_map]
    have hcomp : ((fun e : String × PlayerState => e.1 == cellId) ∘
        (fun p : String × PlayerState =>
          if p.1 = cellId then (p.1, applyUpdate p.2 u)
          else (p.1, { p.2 with muted := true }))) =
        (fun e : String × PlayerState => e.1 == cellId) := by
      funext p
      by_cases hpk : p.1 = cellId <;> simp [hpk]
    rw [hcomp, hfind]
    simp
  · unfold applyUpdate
    rw [hmuted]
    rfl

/-- Witness for C10: a concrete two-entry player-state record, unmuting
`"a"` with a volume change mutes `"b"` and updates `"a"`. -/
theorem setPlayerState_muteOthers_witness :
    (setPlayerState
        { initialState with
          playerStates := [("a", createDefaultPlayerState "a"),
                           ("b", createDefaultPlayerState "b")] }
        "a" { muted := some false, volume := some 80 }).playerStates =
      [("a", { cellId := "a", muted := false, volume := 80, playing := false,
               currentTime := none, playbackRate := some 1 }),
       ("b", { cellId := "b", muted := true, volume := 50, playing := false,
               currentTime := none, playbackRate := some 1 })] := by
  have h := setPlayerState_muteOthers
    { initialState with
      playerStates := [("a", createDefaultPlayerState "a"),
                       ("b", createDefaultPlayerState "b")] }
    "a" { muted := some false, volume := some 80 }
    (createDefaultPlayerState "a") rfl rfl (by decide) (by decide)
  rw [h.1]
  decide

end Hololive
